import Mathlib

/-!
Shallow embedding of the OCR full-text extractor
(`ocr_utils.py`, `extractor.py`) and proofs about its
specification claims.

Strings are modelled as Lean `String` (lists of unicode characters),
Python dicts with insertion order as association lists, raised
exceptions as `Except`, and XML element trees as a rose tree carrying
tag, attributes, text and children.
-/

/-- Characters treated as whitespace by Python's `str.strip()` and by
the regex class `\s` (the Unicode whitespace set used by `str.isspace`). -/
def pySpaceChars : List Char :=
  ['\t', '\n', '\x0b', '\x0c', '\r', '\x1c', '\x1d', '\x1e', '\x1f', ' ',
   '\x85', '\xa0', ' ', ' ', ' ', ' ', ' ',
   ' ', ' ', ' ', ' ', ' ', ' ', ' ',
   ' ', ' ', ' ', ' ', '　']

def isPySpace (c : Char) : Bool := c ∈ pySpaceChars

/-- The punctuation class `[.,;:!?]` of the normalization regex. -/
def isPunctChar (c : Char) : Bool := c ∈ ['.', ',', ';', ':', '!', '?']

/-- Python `str.strip()` on a character list: drop whitespace from both ends. -/
def pyStrip (l : List Char) : List Char :=
  ((l.dropWhile isPySpace).reverse.dropWhile isPySpace).reverse

/-- Python `str.strip()` on a string. -/
def pyStripStr (s : String) : String := String.mk (pyStrip s.data)

/-- The substitution table of `normalize_historical_characters`
(`ocr_utils.py` lines 62-68): each key is a single code point. -/
def replacements : List (Char × List Char) :=
  [('ſ', ['s']), ('ꝛ', ['r']),
   ('æ', ['a', 'e']), ('Æ', ['A', 'e']),
   ('œ', ['o', 'e']), ('Œ', ['O', 'e']),
   ('ﬀ', ['f', 'f']), ('ﬁ', ['f', 'i']), ('ﬂ', ['f', 'l']),
   ('ﬃ', ['f', 'f', 'i']), ('ﬄ', ['f', 'f', 'l']),
   ('ꞵ', ['ß'])]

/-- Python `text.replace(old, new)` for a single-character `old`. -/
def replaceChar (o : Char) (n : List Char) (t : List Char) : List Char :=
  t.flatMap (fun c => if c = o then n else [c])

/-- The `for old, new in replacements.items(): text = text.replace(old, new)`
loop of `normalize_historical_characters`. -/
def applyReplacements (t : List Char) : List Char :=
  replacements.foldl (fun acc p => replaceChar p.1 p.2 acc) t

/-- Whether a character list starts with a punctuation character. -/
def headPunct : List Char → Bool
  | c :: _ => isPunctChar c
  | [] => false

/-- The effect of `re.sub` with pattern backslash-s-plus before `[.,;:!?]`
replaced by the punctuation mark alone: every maximal whitespace run
immediately followed by one of the six punctuation marks is deleted.
Processing from the right, a whitespace character is dropped exactly when
the already-processed suffix starts with a punctuation mark. -/
def subPunct : List Char → List Char
  | [] => []
  | c :: rest =>
      if isPySpace c && headPunct (subPunct rest) then subPunct rest
      else c :: subPunct rest

/-- Whether a character is one of the substitution table's source glyphs. -/
def isSource (c : Char) : Bool := decide (∃ p ∈ replacements, p.1 = c)

/-- No whitespace character is immediately followed by a punctuation
character: the post-state of the punctuation regex. -/
def okPairs : List Char → Bool
  | c :: p :: rest => (!(isPySpace c && isPunctChar p)) && okPairs (p :: rest)
  | _ => true

/-- The normalization policy of `ocr_utils.py` (`normalize_historical_characters`):
apply the substitution table, remove whitespace before punctuation,
then strip the ends. -/
def normalize_historical_characters (s : String) : String :=
  String.mk (pyStrip (subPunct (applyReplacements s.data)))

/-! ## XML trees and the ALTO text extractor (`ocr_utils.py`) -/

/-- An XML element as produced by `xml.etree.ElementTree`: a tag
(with the namespace URI folded into the tag in Clark notation),
attributes, optional text and child elements in document order. -/
inductive XmlTree where
  | elem (tag : String) (attrs : List (String × String)) (children : List XmlTree)

def XmlTree.tag : XmlTree → String
  | .elem t _ _ => t

def XmlTree.attrs : XmlTree → List (String × String)
  | .elem _ a _ => a

def XmlTree.children : XmlTree → List XmlTree
  | .elem _ _ c => c

mutual

/-- All proper descendants of an element in document order. -/
def XmlTree.descendants : XmlTree → List XmlTree
  | .elem _ _ cs => XmlTree.descList cs

def XmlTree.descList : List XmlTree → List XmlTree
  | [] => []
  | t :: ts => t :: XmlTree.descendants t ++ XmlTree.descList ts

end

/-- `root.findall(".//tag")`: the descendants with the given (qualified)
tag, in document order; the root itself is not considered. -/
def findall (root : XmlTree) (tag : String) : List XmlTree :=
  root.descendants.filter (fun e => e.tag = tag)

/-- `elem.attrib.get(key, default)`. -/
def attrGet (e : XmlTree) (key default : String) : String :=
  match e.attrs.lookup key with
  | some v => v
  | none => default

/-- The ALTO namespace prefix in Clark notation, as `ElementTree` expands
the query `alto:TextLine` with the namespace map of `ocr_utils.py`. -/
def altoTextLineTag : String :=
  "\x7bhttp://www.loc.gov/standards/alto/ns-v4#\x7dTextLine"

def altoStringTag : String :=
  "\x7bhttp://www.loc.gov/standards/alto/ns-v4#\x7dString"

/-- The text of one `TextLine` element: the `CONTENT` attribute of each
`alto:String` descendant in document order, non-empty values joined with
a single space (`" ".join(w for w in words if w)`). -/
def lineContent (line : XmlTree) : String :=
  String.intercalate " "
    (((findall line altoStringTag).map (fun w => attrGet w "CONTENT" "")).filter
      (fun w => w ≠ ""))

/-- `extract_alto_text` from `ocr_utils.py`: find the `TextLine` elements
(namespace-qualified query first, unqualified fallback), render each line
(normalized when requested) and join the lines with a newline. -/
def extract_alto_text (alto_root : XmlTree) (normalize : Bool) : String :=
  let lines :=
    match findall alto_root altoTextLineTag with
    | [] => findall alto_root "TextLine"
    | ls => ls
  String.intercalate "\n"
    (lines.map (fun le =>
      let line_text := lineContent le
      if normalize then normalize_historical_characters line_text else line_text))

/-! ## The METS manifest model and the resolver (`extractor.py`) -/

/-- One `mets:file` element inside the `FULLTEXT` file group:
its `ID` attribute (defaulted to the empty string) and, when a
`mets:FLocat` descendant exists, that element's `xlink:href`
attribute (defaulted to the empty string). -/
structure FileEntry where
  id : String
  flocat : Option String
deriving DecidableEq

/-- One `mets:div` of the logical `structMap`: the raw `ORDER`,
`TYPE` and `LABEL` attributes (the latter two defaulted to `""`,
`ORDER` kept optional). -/
structure RawDiv where
  order : Option String
  type : String
  label : String
deriving DecidableEq

/-- The loaded METS manifest, abstracted by the results of the fixed
queries the resolver performs on it.  A field of type
`Option (Option String)` is `none` when `find` returns no element, and
`some t` when the element exists with `.text` equal to `t`
(`t = none` models a Python `None` text). -/
structure MetsDoc where
  modsTitle : Option (Option String) := none
  dcTitle : Option (Option String) := none
  modsDisplayForm : Option (Option String) := none
  dcCreator : Option (Option String) := none
  modsDateIssued : Option (Option String) := none
  dcDate : Option (Option String) := none
  vd16 : Option (Option String) := none
  vd17 : Option (Option String) := none
  vd18 : Option (Option String) := none
  fulltextFiles : List FileEntry := []
  logicalDivs : List RawDiv := []

/-- Python truthiness test `elem is not None and elem.text` on a
`find` result: the element exists and its text is neither `None`
nor the empty string. -/
def truthyText : Option (Option String) → Option String
  | some (some t) => if t = "" then none else some t
  | _ => none

/-- The metadata record returned by `extract_metadata_from_mets`. -/
structure MetadataOut where
  title : String
  author : String
  year : String
  vd_number : String
deriving DecidableEq

/-- One field's fallback chain: the primary query's stripped text when
truthy, else the secondary query's stripped text when truthy, else `""`. -/
def fallbackField (primary secondary : Option (Option String)) : String :=
  match truthyText primary with
  | some t => pyStripStr t
  | none =>
      match truthyText secondary with
      | some t => pyStripStr t
      | none => ""

/-- Python `str.upper()` restricted to ASCII letters, which is all the
program upper-cases (`"vd16"` and friends). -/
def pyUpper (s : String) : String := String.mk (s.data.map Char.toUpper)

/-- The `for vd_type in ("vd16", "vd17", "vd18")` loop with `break`:
the first variant whose element exists with truthy text wins and is
rendered as upper-cased label, a space, and the stripped text. -/
def vdFold : List (String × Option (Option String)) → String
  | [] => ""
  | (name, q) :: rest =>
      match truthyText q with
      | some t => pyUpper name ++ " " ++ pyStripStr t
      | none => vdFold rest

/-- `extract_metadata_from_mets` (`extractor.py` lines 8-64), taking the
outcome of `load_xml` on the manifest: a load failure degrades to the
all-empty record. -/
def extract_metadata_from_mets (load : Except Unit MetsDoc) : MetadataOut :=
  match load with
  | .error _ => ⟨"", "", "", ""⟩
  | .ok m =>
      { title := fallbackField m.modsTitle m.dcTitle
        author := fallbackField m.modsDisplayForm m.dcCreator
        year := fallbackField m.modsDateIssued m.dcDate
        vd_number := vdFold [("vd16", m.vd16), ("vd17", m.vd17), ("vd18", m.vd18)] }

/-! ## Locator extraction and the Python sort (`extract_alto_links`) -/

/-- The last underscore-separated segment of a string,
Python `s.split("_")[-1]`. -/
def lastSeg (s : String) : String :=
  String.mk ((s.data.reverse.takeWhile (fun c => c ≠ '_')).reverse)

/-- Accept a non-empty run of ASCII decimal digits, as Python's `int`
does for the digit part (the shallow model restricts Python's unicode
digits to ASCII). -/
def parseDigits (l : List Char) : Option Int :=
  if l ≠ [] ∧ l.all Char.isDigit then
    some (l.foldl (fun a c => a * 10 + (Int.ofNat (c.toNat - 48))) 0)
  else
    none

/-- Python `int(s)`: strip surrounding whitespace, allow one leading
sign, then a non-empty digit run; anything else raises `ValueError`
(modelled by `none`). -/
def parsePyInt (s : String) : Option Int :=
  match pyStrip s.data with
  | '-' :: ds => (parseDigits ds).map (fun n => -n)
  | '+' :: ds => parseDigits ds
  | ds => parseDigits ds

/-- A Python sort key as produced by the inner `sort_key` function:
either an `int` or a `str`. -/
abbrev PyKey := Sum Int String

/-- The `sort_key` closure of `extract_alto_links`: the integer value of
the identifier's last underscore-separated segment when `int` accepts it,
otherwise the raw identifier string. -/
def sort_key (item : String × String) : PyKey :=
  match parsePyInt (lastSeg item.1) with
  | some n => Sum.inl n
  | none => Sum.inr item.1

/-- Python's comparison of two sort keys: two `int`s or two `str`s
compare normally; comparing an `int` with a `str` raises `TypeError`
(modelled by `Except.error`). -/
def keyLe : PyKey → PyKey → Except Unit Bool
  | Sum.inl a, Sum.inl b => Except.ok (decide (a ≤ b))
  | Sum.inr a, Sum.inr b => Except.ok (decide (a ≤ b))
  | _, _ => Except.error ()

/-- Two sort keys are comparable when Python's comparison succeeds on
them (both `int` or both `str`). -/
def Comparable (p q : PyKey) : Prop := ∃ b, keyLe p q = Except.ok b

/-- Stable insertion of `x` into an already sorted list, performing the
key comparisons Python's stable sort would need; any `int`-versus-`str`
comparison aborts with the `TypeError`. -/
def pyInsert (k : α → PyKey) (x : α) : List α → Except Unit (List α)
  | [] => Except.ok [x]
  | h :: t =>
      match keyLe (k x) (k h) with
      | Except.error e => Except.error e
      | Except.ok true => Except.ok (x :: h :: t)
      | Except.ok false =>
          match pyInsert k x t with
          | Except.error e => Except.error e
          | Except.ok r => Except.ok (h :: r)

/-- `files.sort(key=sort_key)` as a stable insertion sort in the
exception monad.  On key sets where the comparison is total this agrees
with Python's stable sort; a mixed `int`/`str` key set raises `TypeError`. -/
def pySort (k : α → PyKey) : List α → Except Unit (List α)
  | [] => Except.ok []
  | h :: t =>
      match pySort k t with
      | Except.error e => Except.error e
      | Except.ok r => pyInsert k h r

/-- The collection loop of `extract_alto_links`: keep `(ID, href)` for
every file entry that has a `FLocat` with a non-empty `href`. -/
def collectFiles (entries : List FileEntry) : List (String × String) :=
  entries.filterMap (fun e =>
    match e.flocat with
    | some href => if href = "" then none else some (e.id, href)
    | none => none)

/-- The exceptions `extract_alto_links` can propagate: the re-raised
manifest load failure, or the `TypeError` from sorting mixed keys. -/
inductive ExtractErr where
  | loadError
  | typeError
deriving DecidableEq

/-- `extract_alto_links` (`extractor.py` lines 67-94): re-raise a manifest
load failure, collect the `FULLTEXT` file entries, sort them by
`sort_key` and return the `href` column. -/
def extract_alto_links (load : Except Unit MetsDoc) : Except ExtractErr (List String) :=
  match load with
  | .error _ => .error .loadError
  | .ok m =>
      match pySort sort_key (collectFiles m.fulltextFiles) with
      | .error _ => .error .typeError
      | .ok fs => .ok (fs.map (fun f => f.2))

/-! ## Structure extraction and the per-page text loop -/

/-- A retained logical structure node
(`{"order": <int or None>, "type": ..., "label": ...}`). -/
structure StructureNode where
  order : Option Int
  type : String
  label : String
deriving DecidableEq

/-- `order_val = int(order) if order and order.isdigit() else None`:
Python `str.isdigit` on ASCII digits, requiring a non-empty string. -/
def orderVal : Option String → Option Int
  | some o =>
      if o.data ≠ [] ∧ o.data.all Char.isDigit then parseDigits o.data else none
  | none => none

/-- `extract_structure` (`extractor.py` lines 97-122): a load failure
degrades to the empty list; otherwise keep each logical `div` that has a
non-empty `TYPE` or `LABEL`, in document order. -/
def extract_structure (load : Except Unit MetsDoc) : List StructureNode :=
  match load with
  | .error _ => []
  | .ok m =>
      m.logicalDivs.filterMap (fun d =>
        if d.type ≠ "" ∨ d.label ≠ "" then
          some ⟨orderVal d.order, d.type, d.label⟩
        else
          none)

/-- `f"page_{i:04d}"`: the decimal digits of `i` left-padded with zeros
to at least four characters. -/
def pageKey (i : Nat) : String :=
  let s := toString i
  "page_" ++ String.mk (List.replicate (4 - s.length) '0') ++ s

/-- The body of the `for i, link in enumerate(alto_links, start=1)` loop
of `extract_all_texts`: each page is keyed by its 1-based position; a
page whose load fails contributes the empty string. -/
def extract_all_texts_go (loader : String → Except Unit XmlTree) (normalize : Bool) :
    Nat → List String → List (String × String)
  | _, [] => []
  | i, link :: rest =>
      (pageKey i,
        match loader link with
        | .ok tree => extract_alto_text tree normalize
        | .error _ => "") :: extract_all_texts_go loader normalize (i + 1) rest

/-- `extract_all_texts` (`extractor.py` lines 125-140): resolve the
locators (propagating their failures), then build the ordered page-text
map. -/
def extract_all_texts (loader : String → Except Unit XmlTree) (normalize : Bool)
    (load : Except Unit MetsDoc) : Except ExtractErr (List (String × String)) :=
  match extract_alto_links load with
  | .error e => .error e
  | .ok links => .ok (extract_all_texts_go loader normalize 1 links)

/-! ## The document loader (`ocr_utils.py` `load_xml`) -/

/-- Python `source.startswith(prefix)`: character-list prefix test. -/
def pyStartswith (s p : String) : Bool := p.data.isPrefixOf s.data

/-- `load_xml` (`ocr_utils.py` lines 17-34) with the two transports
injected: a source string that starts with `"http"` is fetched over the
network, every other string is opened as a local file. -/
def load_xml (net file : String → Except Unit XmlTree) (source : String) :
    Except Unit XmlTree :=
  if pyStartswith source "http" then net source else file source

/-! ## The output assembler (`save_full_output`, `save_pagewise_output`) -/

/-- The JSON values `json.dump` writes for this program. -/
inductive Json where
  | null
  | str (s : String)
  | num (n : Int)
  | arr (xs : List Json)
  | obj (fields : List (String × Json))

/-- What one output file holds: a JSON document or plain text. -/
inductive FileContent where
  | json (j : Json)
  | text (s : String)

/-- The metadata dict as the save functions receive it from
`run_extraction`: the four bibliographic fields plus the `_mets_path`
helper entry (the empty string models a missing or empty path, matching
the `metadata.get("_mets_path")` truthiness test). -/
structure Metadata where
  title : String := ""
  author : String := ""
  year : String := ""
  vd_number : String := ""
  mets_path : String := ""
deriving DecidableEq

/-- `os.path.basename`: the part after the last slash. -/
def basename (p : String) : String :=
  String.mk ((p.data.reverse.takeWhile (fun c => c ≠ '/')).reverse)

/-- The `source` field of a record: the basename of the manifest path,
or JSON `null` when no truthy `_mets_path` is present. -/
def sourceJson (md : Metadata) : Json :=
  if md.mets_path = "" then Json.null else Json.str (basename md.mets_path)

/-- One structure node rendered as the dict
`{"order": ..., "type": ..., "label": ...}`. -/
def renderDiv (d : StructureNode) : Json :=
  Json.obj [("order", match d.order with | some n => Json.num n | none => Json.null),
            ("type", Json.str d.type),
            ("label", Json.str d.label)]

/-- The per-page record both save functions build:
`{"page", "order", "text", "title", "author", "year", "vd_number", "source"}`. -/
def pageRecord (md : Metadata) (i : Nat) (page text : String) : Json :=
  Json.obj [("page", Json.str page),
            ("order", Json.num (Int.ofNat i)),
            ("text", Json.str text),
            ("title", Json.str md.title),
            ("author", Json.str md.author),
            ("year", Json.str md.year),
            ("vd_number", Json.str md.vd_number),
            ("source", sourceJson md)]

/-- The `for i, (page, content) in enumerate(texts.items(), start=1)`
loop of `save_full_output`. -/
def pageRecordsFrom (md : Metadata) : Nat → List (String × String) → List Json
  | _, [] => []
  | i, (page, content) :: rest =>
      pageRecord md i page content :: pageRecordsFrom md (i + 1) rest

/-- `save_full_output` (`extractor.py` lines 143-178), modelled by the
content of the single file it writes: in JSON mode a list that starts
with `{"structure": [...]}` when the structure list is non-empty,
followed by the page records; otherwise the page texts joined with
`"\n\n---\n\n"` for Markdown and `"\n\n"` for every other format. -/
def save_full_output (texts : List (String × String)) (fmt : String)
    (struct : List StructureNode) (md : Metadata) : FileContent :=
  if fmt = "json" then
    FileContent.json (Json.arr
      ((if struct.isEmpty then []
        else [Json.obj [("structure", Json.arr (struct.map renderDiv))]])
       ++ pageRecordsFrom md 1 texts))
  else
    FileContent.text
      (String.intercalate (if fmt = "md" then "\n\n---\n\n" else "\n\n")
        (texts.map (fun t => t.2)))

/-- The per-page write loop of `save_pagewise_output`: each page becomes
one file named by its key, holding its record in JSON mode and the bare
text otherwise. -/
def save_pagewise_go (md : Metadata) (fmt : String) :
    Nat → List (String × String) → List (String × FileContent)
  | _, [] => []
  | i, (page, content) :: rest =>
      (if fmt = "json" then
        (page ++ ".json", FileContent.json (pageRecord md i page content))
       else
        (page ++ "." ++ fmt, FileContent.text content))
        :: save_pagewise_go md fmt (i + 1) rest

/-- `save_pagewise_output` (`extractor.py` lines 181-217), modelled by the
ordered list of `(file name, content)` pairs it writes: in JSON mode a
`content.json` holding `{"content": [...]}` first, but only when the
structure list is non-empty, then one file per page. -/
def save_pagewise_output (texts : List (String × String)) (fmt : String)
    (struct : List StructureNode) (md : Metadata) : List (String × FileContent) :=
  (if fmt = "json" ∧ ¬struct.isEmpty then
    [("content.json", FileContent.json (Json.obj [("content", Json.arr (struct.map renderDiv))]))]
   else [])
  ++ save_pagewise_go md fmt 1 texts

instance : Inhabited Json := ⟨Json.null⟩

instance : Inhabited FileContent := ⟨FileContent.text ""⟩

def netStub : String → Except Unit XmlTree := fun _ => Except.error ()

def fileStub : String → Except Unit XmlTree := fun _ => Except.ok (XmlTree.elem "root" [] [])

def metsC2 : MetsDoc :=
  { fulltextFiles := [⟨"FILE_0001", some "a1.xml"⟩, ⟨"FILE_0002", some "a2.xml"⟩] }

def loaderC2 : String → Except Unit XmlTree := fun _ => Except.error ()

def mdTitled : Metadata := { title := "Ein Titel" }

def divC3 : StructureNode := ⟨some 1, "chapter", "Kap. 1"⟩

/-- One line rendered by `extract_alto_text`: its joined word content,
normalized when requested. -/
def renderLine (normalize : Bool) (le : XmlTree) : String :=
  if normalize then normalize_historical_characters (lineContent le) else lineContent le

def wordW (c : String) : XmlTree := XmlTree.elem altoStringTag [("CONTENT", c)] []

def lineQW : XmlTree :=
  XmlTree.elem altoTextLineTag [] [wordW "Hallo", wordW "", wordW "Welt"]

def treeQW : XmlTree := XmlTree.elem "alto" [] [lineQW]

def lineUW : XmlTree :=
  XmlTree.elem "TextLine" [] [wordW "Nur"]

def treeUW : XmlTree := XmlTree.elem "alto" [] [lineUW]

def treeEW : XmlTree := XmlTree.elem "alto" [] []

/-- The spec scenario manifest: three full-text entries identified
`FILE_0001`, `FILE_0010`, `FILE_0002` (document order differs from
numeric order). -/
def metsScenario : MetsDoc :=
  { fulltextFiles := [⟨"FILE_0001", some "a1"⟩, ⟨"FILE_0010", some "a10"⟩,
      ⟨"FILE_0002", some "a2"⟩] }

/-- A manifest mixing a numeric-suffixed identifier with a non-numeric
one. -/
def metsMixed : MetsDoc :=
  { fulltextFiles := [⟨"FILE_0001", some "a1"⟩, ⟨"CALIB", some "c"⟩] }

/-! ## Claim theorems -/

/-- C7: when the manifest fails to load, `extract_metadata_from_mets`
returns the all-empty metadata record and `extract_structure` the empty
list, while `extract_alto_links` re-raises the load failure. -/
theorem C7_load_failure_policy :
    extract_metadata_from_mets (Except.error ()) = ⟨"", "", "", ""⟩ ∧
    extract_structure (Except.error ()) = [] ∧
    extract_alto_links (Except.error ()) = Except.error ExtractErr.loadError := by
  refine ⟨rfl, rfl, rfl⟩

/-- C8: `vd_number` probes the typed identifiers `vd16`, `vd17`, `vd18`
in this order; the first variant with truthy text wins and the result is
the upper-case label, a space and the stripped value; with no match it
is the empty string. -/
theorem C8_vd_number_priority (m : MetsDoc) :
    (extract_metadata_from_mets (Except.ok m)).vd_number =
      match truthyText m.vd16 with
      | some t => "VD16 " ++ pyStripStr t
      | none =>
          match truthyText m.vd17 with
          | some t => "VD17 " ++ pyStripStr t
          | none =>
              match truthyText m.vd18 with
              | some t => "VD18 " ++ pyStripStr t
              | none => "" := by
  show vdFold [("vd16", m.vd16), ("vd17", m.vd17), ("vd18", m.vd18)] = _
  cases h16 : truthyText m.vd16 with
  | some t => simp [vdFold, h16]; rfl
  | none =>
      cases h17 : truthyText m.vd17 with
      | some t => simp [vdFold, h16, h17]; rfl
      | none =>
          cases h18 : truthyText m.vd18 with
          | some t => simp [vdFold, h16, h17, h18]; rfl
          | none => simp [vdFold, h16, h17, h18]

/-- C9: combined plain output joins the page texts with one blank line
(two newlines) and no leading or trailing separator; combined markup
output joins them with a horizontal-rule separator; two pages `A` and
`B` in markup shape give exactly that string. -/
theorem C9_combined_separators (texts : List (String × String))
    (struct : List StructureNode) (md : Metadata) :
    save_full_output texts "txt" struct md =
      FileContent.text (String.intercalate "\n\n" (texts.map (fun t => t.2))) ∧
    save_full_output texts "md" struct md =
      FileContent.text (String.intercalate "\n\n---\n\n" (texts.map (fun t => t.2))) ∧
    save_full_output [("page_0001", "A"), ("page_0002", "B")] "md" [] {} =
      FileContent.text "A\n\n---\n\nB" := by
  refine ⟨by simp [save_full_output], by simp [save_full_output], rfl⟩

/-- C10: `load_xml` routes to the network exactly when the source string
starts with `"http"`; a local-looking path with that prefix is fetched
remotely and a URI with a non-http scheme is opened as a file, so no
full `://` separator is checked. -/
theorem C10_http_prefix_routing (net file : String → Except Unit XmlTree) (s : String) :
    (pyStartswith s "http" = true → load_xml net file s = net s) ∧
    (pyStartswith s "http" = false → load_xml net file s = file s) ∧
    load_xml net file "httpdocs/mets.xml" = net "httpdocs/mets.xml" ∧
    load_xml net file "ftp://host/mets.xml" = file "ftp://host/mets.xml" := by
  refine ⟨fun h => by simp [load_xml, h], fun h => by simp [load_xml, h], ?_, ?_⟩
  · simp [load_xml, show pyStartswith "httpdocs/mets.xml" "http" = true by rfl]
  · simp [load_xml, show pyStartswith "ftp://host/mets.xml" "http" = false by rfl]


/-- Concrete instantiation of `C10_http_prefix_routing` at both routing
branches. -/
theorem C10_http_prefix_routing_witness :
    load_xml netStub fileStub "https://example.org/mets.xml" = netStub "https://example.org/mets.xml" ∧
    load_xml netStub fileStub "docs/mets.xml" = fileStub "docs/mets.xml" :=
  ⟨(C10_http_prefix_routing netStub fileStub "https://example.org/mets.xml").1 rfl,
   (C10_http_prefix_routing netStub fileStub "docs/mets.xml").2.1 rfl⟩

theorem extract_all_texts_go_length (loader : String → Except Unit XmlTree)
    (normalize : Bool) : ∀ (s : Nat) (l : List String),
    (extract_all_texts_go loader normalize s l).length = l.length := by
  intro s l
  induction l generalizing s with
  | nil => rfl
  | cons x xs ih => simp [extract_all_texts_go, ih]

theorem extract_all_texts_go_get (loader : String → Except Unit XmlTree)
    (normalize : Bool) : ∀ (l : List String) (s i : Nat), i < l.length →
    (extract_all_texts_go loader normalize s l)[i]! =
      (pageKey (s + i),
        match loader l[i]! with
        | .ok tree => extract_alto_text tree normalize
        | .error _ => "") := by
  intro l
  induction l with
  | nil => intro s i h; simp at h
  | cons x xs ih =>
      intro s i h
      cases i with
      | zero => simp [extract_all_texts_go]
      | succ j =>
          have hj : j < xs.length := by simpa using h
          have := ih (s + 1) j hj
          simp only [extract_all_texts_go, List.getElem!_cons_succ]
          rw [this]
          have : s + 1 + j = s + (j + 1) := by omega
          rw [this]

/-- C2: on a resolved locator sequence of length N, `extract_all_texts`
produces exactly N entries, keyed `page_0001`, `page_0002`, ... by
1-based position, and a page whose load fails is mapped to the empty
string at its original position instead of being dropped. -/
theorem C2_pagetext_contiguous (loader : String → Except Unit XmlTree)
    (normalize : Bool) (load : Except Unit MetsDoc) (links : List String)
    (h : extract_alto_links load = Except.ok links) (i : Nat) (hi : i < links.length) :
    ∃ texts, extract_all_texts loader normalize load = Except.ok texts ∧
      texts.length = links.length ∧
      texts[i]! = (pageKey (i + 1),
        match loader links[i]! with
        | .ok tree => extract_alto_text tree normalize
        | .error _ => "") := by
  refine ⟨extract_all_texts_go loader normalize 1 links, ?_, ?_, ?_⟩
  · simp [extract_all_texts, h]
  · exact extract_all_texts_go_length loader normalize 1 links
  · have := extract_all_texts_go_get loader normalize links 1 i hi
    rw [this]
    have : 1 + i = i + 1 := by omega
    rw [this]


/-- Concrete instantiation of `C2_pagetext_contiguous`: two resolved
pages whose loads both fail; the second entry is `page_0002` with empty
text. -/
theorem C2_pagetext_contiguous_witness :
    ∃ texts, extract_all_texts loaderC2 true (Except.ok metsC2) = Except.ok texts ∧
      texts.length = (["a1.xml", "a2.xml"] : List String).length ∧
      texts[1]! = (pageKey 2,
        match loaderC2 (["a1.xml", "a2.xml"] : List String)[1]! with
        | .ok tree => extract_alto_text tree true
        | .error _ => "") :=
  C2_pagetext_contiguous loaderC2 true (Except.ok metsC2) ["a1.xml", "a2.xml"] rfl 1 (by decide)


/-- C3 fails on the code: with non-empty metadata but an empty structure
list the combined JSON output contains no structure-summary record at
all, and with a non-empty structure list the leading record is
`{"structure": [...]}` rather than the claimed
`{"metadata": {..., num_pages}, "divs": [...]}` schema. -/
theorem C3_counterexample :
    save_full_output [("page_0001", "x")] "json" [] mdTitled =
      FileContent.json (Json.arr [pageRecord mdTitled 1 "page_0001" "x"]) ∧
    (∀ mdJson divs rest,
      Json.arr [pageRecord mdTitled 1 "page_0001" "x"] ≠
        Json.arr (Json.obj [("metadata", mdJson), ("divs", divs)] :: rest)) ∧
    save_full_output [("page_0001", "x")] "json" [divC3] mdTitled =
      FileContent.json (Json.arr
        [Json.obj [("structure", Json.arr [renderDiv divC3])],
         pageRecord mdTitled 1 "page_0001" "x"]) ∧
    (∀ mdJson divs rest,
      Json.obj [("structure", Json.arr [renderDiv divC3])] ≠
        Json.obj (("metadata", mdJson) :: ("divs", divs) :: rest)) := by
  refine ⟨rfl, ?_, rfl, ?_⟩
  · intro mdJson divs rest h
    simp [pageRecord] at h
  · intro mdJson divs rest h
    simp at h

/-- C3 amended: in combined structured mode the output collection starts
with the single record `{"structure": [...]}` exactly when the structure
list is non-empty (metadata alone adds no summary record, and no
metadata fields or page count are part of it), followed by one record
per page in PageText sequence order. -/
theorem C3_amended_structure_record (texts : List (String × String))
    (struct : List StructureNode) (md : Metadata) :
    (struct = [] →
      save_full_output texts "json" struct md =
        FileContent.json (Json.arr (pageRecordsFrom md 1 texts))) ∧
    (struct ≠ [] →
      save_full_output texts "json" struct md =
        FileContent.json (Json.arr
          (Json.obj [("structure", Json.arr (struct.map renderDiv))] ::
            pageRecordsFrom md 1 texts))) ∧
    (pageRecordsFrom md 1 texts).length = texts.length ∧
    (∀ i, i < texts.length →
      (pageRecordsFrom md 1 texts)[i]! =
        pageRecord md (i + 1) texts[i]!.1 texts[i]!.2) := by
  have hlen : ∀ (s : Nat) (l : List (String × String)),
      (pageRecordsFrom md s l).length = l.length := by
    intro s l
    induction l generalizing s with
    | nil => rfl
    | cons x xs ih => simp [pageRecordsFrom, ih]
  have hget : ∀ (l : List (String × String)) (s i : Nat), i < l.length →
      (pageRecordsFrom md s l)[i]! = pageRecord md (s + i) l[i]!.1 l[i]!.2 := by
    intro l
    induction l with
    | nil => intro s i h; simp at h
    | cons x xs ih =>
        intro s i h
        cases i with
        | zero => simp [pageRecordsFrom]
        | succ j =>
            have hj : j < xs.length := by simpa using h
            have := ih (s + 1) j hj
            simp only [pageRecordsFrom, List.getElem!_cons_succ]
            rw [this]
            have : s + 1 + j = s + (j + 1) := by omega
            rw [this]
  refine ⟨fun h => ?_, fun h => ?_, hlen 1 texts, fun i hi => ?_⟩
  · simp [save_full_output, h]
  · simp [save_full_output, List.isEmpty_iff, h]
  · have := hget texts 1 i hi
    rw [this]
    have : 1 + i = i + 1 := by omega
    rw [this]

/-- Concrete instantiation of `C3_amended_structure_record` at a
one-node structure list and one page. -/
theorem C3_amended_structure_record_witness :
    save_full_output [("page_0001", "x")] "json" [divC3] mdTitled =
      FileContent.json (Json.arr
        (Json.obj [("structure", Json.arr ([divC3].map renderDiv))] ::
          pageRecordsFrom mdTitled 1 [("page_0001", "x")])) ∧
    (pageRecordsFrom mdTitled 1 [("page_0001", "x")])[0]! =
      pageRecord mdTitled 1 "page_0001" "x" :=
  ⟨(C3_amended_structure_record [("page_0001", "x")] [divC3] mdTitled).2.1
      (by simp),
   (C3_amended_structure_record [("page_0001", "x")] [divC3] mdTitled).2.2.2 0
      (by decide)⟩

/-- C4 fails on the code: with entirely empty structure but non-empty
metadata, `save_pagewise_output` writes no `content.json` (the condition
tests only the structure list), while the page record files are still
written. -/
theorem C4_counterexample :
    mdTitled ≠ ({} : Metadata) ∧
    (save_pagewise_output [("page_0001", "x")] "json" [] mdTitled).map Prod.fst =
      ["page_0001.json"] ∧
    "content.json" ∉
      (save_pagewise_output [("page_0001", "x")] "json" [] mdTitled).map Prod.fst := by
  refine ⟨by decide, rfl, by decide⟩

theorem save_pagewise_go_names (md : Metadata) :
    ∀ (s : Nat) (l : List (String × String)),
    (save_pagewise_go md "json" s l).map Prod.fst = l.map (fun t => t.1 ++ ".json") := by
  intro s l
  induction l generalizing s with
  | nil => rfl
  | cons x xs ih => simp [save_pagewise_go, ih]

theorem save_pagewise_go_get (md : Metadata) :
    ∀ (l : List (String × String)) (s i : Nat), i < l.length →
    (save_pagewise_go md "json" s l)[i]! =
      (l[i]!.1 ++ ".json", FileContent.json (pageRecord md (s + i) l[i]!.1 l[i]!.2)) := by
  intro l
  induction l with
  | nil => intro s i h; simp at h
  | cons x xs ih =>
      intro s i h
      cases i with
      | zero => simp [save_pagewise_go]
      | succ j =>
          have hj : j < xs.length := by simpa using h
          have := ih (s + 1) j hj
          simp only [save_pagewise_go, List.getElem!_cons_succ]
          rw [this]
          have : s + 1 + j = s + (j + 1) := by omega
          rw [this]

/-- C4 amended: in per-page structured mode the standalone `content.json`
is written exactly when the structure list is non-empty (empty metadata
is irrelevant to the condition), and one page-record file named by the
PageText key is always written for every page, holding that page's own
record. -/
theorem C4_amended_content_json_condition (texts : List (String × String))
    (struct : List StructureNode) (md : Metadata) :
    (save_pagewise_output texts "json" struct md).map Prod.fst =
      (if struct.isEmpty then [] else ["content.json"]) ++
        texts.map (fun t => t.1 ++ ".json") ∧
    (∀ i, i < texts.length →
      (save_pagewise_go md "json" 1 texts)[i]! =
        (texts[i]!.1 ++ ".json",
          FileContent.json (pageRecord md (i + 1) texts[i]!.1 texts[i]!.2))) := by
  constructor
  · by_cases h : struct.isEmpty
    · simp [save_pagewise_output, h, save_pagewise_go_names]
    · simp [save_pagewise_output, h, save_pagewise_go_names]
  · intro i hi
    have := save_pagewise_go_get md texts 1 i hi
    rw [this]
    have : 1 + i = i + 1 := by omega
    rw [this]

/-- Concrete instantiation of `C4_amended_content_json_condition`:
empty structure and empty metadata still yield all page files and no
`content.json`. -/
theorem C4_amended_content_json_condition_witness :
    (save_pagewise_output [("page_0001", "x"), ("page_0002", "y")] "json" [] {}).map Prod.fst =
      (if ([] : List StructureNode).isEmpty then [] else ["content.json"]) ++
        [("page_0001", "x"), ("page_0002", "y")].map (fun t => t.1 ++ ".json") ∧
    (save_pagewise_go {} "json" 1 [("page_0001", "x"), ("page_0002", "y")])[1]! =
      ("page_0002.json", FileContent.json (pageRecord {} 2 "page_0002" "y")) :=
  ⟨(C4_amended_content_json_condition [("page_0001", "x"), ("page_0002", "y")] [] {}).1,
   (C4_amended_content_json_condition [("page_0001", "x"), ("page_0002", "y")] [] {}).2 1
      (by decide)⟩


/-- C5: `extract_alto_text` takes the namespace-qualified `TextLine`
query when it matches anything, falls back to the unqualified query
otherwise, renders each found line as the space-join of the non-empty
`CONTENT` attributes of its `alto:String` descendants in document order
(normalized per line when requested, see `lineContent` and
`renderLine`), joins lines with a newline, and yields the empty string
when no line matches. -/
theorem C5_line_query_fallback (root : XmlTree) (norm : Bool) :
    (∀ l ls, findall root altoTextLineTag = l :: ls →
      extract_alto_text root norm =
        String.intercalate "\n" ((l :: ls).map (renderLine norm))) ∧
    (findall root altoTextLineTag = [] →
      extract_alto_text root norm =
        String.intercalate "\n" ((findall root "TextLine").map (renderLine norm))) ∧
    (findall root altoTextLineTag = [] → findall root "TextLine" = [] →
      extract_alto_text root norm = "") := by
  refine ⟨fun l ls h => ?_, fun h => ?_, fun h h2 => ?_⟩
  · simp only [extract_alto_text, h]
    rfl
  · simp only [extract_alto_text, h]
    rfl
  · simp only [extract_alto_text, h, h2]
    rfl


/-- Concrete instantiation of `C5_line_query_fallback`: a qualified
tree, an unqualified tree resolved through the fallback query, and a
lineless tree yielding the empty string. -/
theorem C5_line_query_fallback_witness :
    extract_alto_text treeQW false =
      String.intercalate "\n" ([lineQW].map (renderLine false)) ∧
    extract_alto_text treeUW false =
      String.intercalate "\n" ((findall treeUW "TextLine").map (renderLine false)) ∧
    extract_alto_text treeEW false = "" :=
  ⟨(C5_line_query_fallback treeQW false).1 lineQW [] rfl,
   (C5_line_query_fallback treeUW false).2.1 rfl,
   (C5_line_query_fallback treeEW false).2.2 rfl rfl⟩

/-! ## Lemmas for the idempotence of the normalization policy (C6) -/

theorem mem_replaceChar {x o : Char} {n t : List Char}
    (h : x ∈ replaceChar o n t) : x ∈ n ∨ (x ∈ t ∧ x ≠ o) := by
  simp only [replaceChar, List.mem_flatMap] at h
  obtain ⟨a, ha, hx⟩ := h
  by_cases hao : a = o
  · subst hao
    rw [if_pos rfl] at hx
    exact Or.inl hx
  · rw [if_neg hao] at hx
    simp only [List.mem_singleton] at hx
    subst hx
    exact Or.inr ⟨ha, hao⟩

theorem mem_foldl_replace {rs : List (Char × List Char)} :
    ∀ {t : List Char} {x : Char},
      x ∈ List.foldl (fun acc p => replaceChar p.1 p.2 acc) t rs →
      (x ∈ t ∧ ∀ p ∈ rs, x ≠ p.1) ∨ ∃ p ∈ rs, x ∈ p.2 := by
  induction rs with
  | nil =>
      intro t x h
      exact Or.inl ⟨h, by simp⟩
  | cons p rs ih =>
      intro t x h
      simp only [List.foldl_cons] at h
      rcases ih h with ⟨hx, hall⟩ | ⟨q, hq, hxq⟩
      · rcases mem_replaceChar hx with hn | ⟨ht, hne⟩
        · exact Or.inr ⟨p, List.mem_cons_self p rs, hn⟩
        · refine Or.inl ⟨ht, ?_⟩
          intro q hq
          rcases List.mem_cons.mp hq with rfl | hq'
          · exact hne
          · exact hall q hq'
      · exact Or.inr ⟨q, List.mem_cons_of_mem _ hq, hxq⟩

theorem targets_source_free :
    ∀ p ∈ replacements, ∀ c ∈ p.2, isSource c = false := by
  decide

theorem not_isSource_applyReplacements {x : Char} {t : List Char}
    (h : x ∈ applyReplacements t) : isSource x = false := by
  rcases mem_foldl_replace h with ⟨_, hall⟩ | ⟨p, hp, hxp⟩
  · rw [isSource, decide_eq_false_iff_not]
    rintro ⟨p, hp, he⟩
    exact hall p hp he.symm
  · exact targets_source_free p hp x hxp

theorem replaceChar_id {o : Char} {n : List Char} :
    ∀ {t : List Char}, (∀ c ∈ t, c ≠ o) → replaceChar o n t = t := by
  intro t
  induction t with
  | nil => intro _; rfl
  | cons a t ih =>
      intro h
      show (if a = o then n else [a]) ++ replaceChar o n t = a :: t
      rw [if_neg (h a (List.mem_cons_self a t)),
        ih (fun c hc => h c (List.mem_cons_of_mem _ hc))]
      rfl

theorem applyReplacements_id {t : List Char}
    (h : ∀ c ∈ t, isSource c = false) : applyReplacements t = t := by
  have key : ∀ (rs : List (Char × List Char)), (∀ c ∈ t, ∀ p ∈ rs, c ≠ p.1) →
      List.foldl (fun acc p => replaceChar p.1 p.2 acc) t rs = t := by
    intro rs
    induction rs with
    | nil => intro _; rfl
    | cons p rs ih =>
        intro hh
        simp only [List.foldl_cons]
        rw [replaceChar_id (fun c hc => hh c hc p (List.mem_cons_self p rs)),
          ih (fun c hc q hq => hh c hc q (List.mem_cons_of_mem _ hq))]
  apply key
  intro c hc p hp he
  have hs := h c hc
  rw [isSource, decide_eq_false_iff_not] at hs
  exact hs ⟨p, hp, he.symm⟩

theorem mem_subPunct {x : Char} : ∀ {t : List Char}, x ∈ subPunct t → x ∈ t := by
  intro t
  induction t with
  | nil => simp [subPunct]
  | cons c rest ih =>
      simp only [subPunct]
      split
      · intro h
        exact List.mem_cons_of_mem _ (ih h)
      · intro h
        rcases List.mem_cons.mp h with rfl | h'
        · exact List.mem_cons_self _ _
        · exact List.mem_cons_of_mem _ (ih h')

theorem mem_pyStrip {x : Char} {t : List Char} (h : x ∈ pyStrip t) : x ∈ t := by
  simp only [pyStrip, List.mem_reverse] at h
  have h2 := (List.dropWhile_sublist _).mem h
  rw [List.mem_reverse] at h2
  exact (List.dropWhile_sublist _).mem h2

theorem okPairs_tail {c : Char} {t : List Char}
    (h : okPairs (c :: t) = true) : okPairs t = true := by
  cases t with
  | nil => rfl
  | cons p rest =>
      simp only [okPairs, Bool.and_eq_true] at h
      exact h.2

theorem okPairs_subPunct : ∀ t : List Char, okPairs (subPunct t) = true := by
  intro t
  induction t with
  | nil => rfl
  | cons c rest ih =>
      simp only [subPunct]
      split
      · exact ih
      · rename_i hcond
        cases hr : subPunct rest with
        | nil => rfl
        | cons p r =>
            rw [hr] at ih hcond
            simp only [okPairs, Bool.and_eq_true]
            refine ⟨?_, ih⟩
            simp only [headPunct] at hcond
            simp only [Bool.not_eq_true']
            exact Bool.eq_false_iff.mpr (fun hx => hcond hx)

theorem subPunct_id_of_okPairs : ∀ {t : List Char}, okPairs t = true → subPunct t = t := by
  intro t
  induction t with
  | nil => intro _; rfl
  | cons c rest ih =>
      intro h
      have hrest := ih (okPairs_tail h)
      simp only [subPunct, hrest]
      cases hr : rest with
      | nil => simp [headPunct]
      | cons p r =>
          rw [hr] at h
          simp only [okPairs, Bool.and_eq_true, Bool.not_eq_true'] at h
          simp [headPunct, h.1]

theorem okPairs_append_left : ∀ {u v : List Char}, okPairs (u ++ v) = true →
    okPairs u = true := by
  intro u
  induction u with
  | nil => intro v _; rfl
  | cons a u ih =>
      intro v h
      cases u with
      | nil => rfl
      | cons b u2 =>
          simp only [List.cons_append, okPairs, Bool.and_eq_true] at h ⊢
          exact ⟨h.1, ih (by simpa using h.2)⟩

theorem okPairs_dropWhile {p : Char → Bool} :
    ∀ {t : List Char}, okPairs t = true → okPairs (t.dropWhile p) = true := by
  intro t
  induction t with
  | nil => intro _; rfl
  | cons c rest ih =>
      intro h
      rw [List.dropWhile_cons]
      split
      · exact ih (okPairs_tail h)
      · exact h

theorem okPairs_pyStrip {t : List Char} (h : okPairs t = true) :
    okPairs (pyStrip t) = true := by
  have ha : okPairs (t.dropWhile isPySpace) = true := okPairs_dropWhile h
  have hsplit : t.dropWhile isPySpace =
      pyStrip t ++ ((t.dropWhile isPySpace).reverse.takeWhile isPySpace).reverse := by
    conv_lhs => rw [← List.reverse_reverse (t.dropWhile isPySpace),
      ← List.takeWhile_append_dropWhile (p := isPySpace)
        (l := (t.dropWhile isPySpace).reverse)]
    rw [List.reverse_append]
    rfl
  rw [hsplit] at ha
  exact okPairs_append_left ha

theorem head?_dropWhile {p : Char → Bool} :
    ∀ {l : List Char} {c : Char}, (l.dropWhile p).head? = some c → p c = false := by
  intro l
  induction l with
  | nil => intro c h; simp at h
  | cons a rest ih =>
      intro c h
      rw [List.dropWhile_cons] at h
      split at h
      · exact ih h
      · simp only [List.head?_cons, Option.some.injEq] at h
        subst h
        simpa using ‹¬ p a = true›

theorem dropWhile_eq_self_of_head {p : Char → Bool} {l : List Char}
    (h : ∀ c, l.head? = some c → p c = false) : l.dropWhile p = l := by
  cases l with
  | nil => rfl
  | cons a rest =>
      rw [List.dropWhile_cons, if_neg]
      simp [h a rfl]

theorem pyStrip_eq_self {l : List Char}
    (h1 : ∀ c, l.head? = some c → isPySpace c = false)
    (h2 : ∀ c, l.getLast? = some c → isPySpace c = false) : pyStrip l = l := by
  unfold pyStrip
  rw [dropWhile_eq_self_of_head h1,
    dropWhile_eq_self_of_head (fun c hc => h2 c (by rwa [List.head?_reverse] at hc)),
    List.reverse_reverse]

theorem pyStrip_idem (t : List Char) : pyStrip (pyStrip t) = pyStrip t := by
  apply pyStrip_eq_self
  · intro c hc
    unfold pyStrip at hc
    rw [List.head?_reverse] at hc
    have hbne : (t.dropWhile isPySpace).reverse.dropWhile isPySpace ≠ [] := by
      intro h
      rw [h] at hc
      exact Option.noConfusion hc
    have hlast : ((t.dropWhile isPySpace).reverse.dropWhile isPySpace).getLast? =
        (t.dropWhile isPySpace).reverse.getLast? := by
      conv_rhs => rw [← List.takeWhile_append_dropWhile (p := isPySpace)
        (l := (t.dropWhile isPySpace).reverse)]
      exact (List.getLast?_append_of_ne_nil _ hbne).symm
    rw [hlast, List.getLast?_reverse] at hc
    exact head?_dropWhile hc
  · intro c hc
    unfold pyStrip at hc
    rw [List.getLast?_reverse] at hc
    exact head?_dropWhile hc

/-- C6: the normalization policy is idempotent — substituting the
historical glyphs, removing whitespace before punctuation and trimming a
second time changes nothing. -/
theorem C6_normalize_idempotent (text : String) :
    normalize_historical_characters (normalize_historical_characters text) =
      normalize_historical_characters text := by
  have mk_data : ∀ l : List Char, (String.mk l).data = l := fun _ => rfl
  simp only [normalize_historical_characters, mk_data]
  have h1 : applyReplacements (pyStrip (subPunct (applyReplacements text.data))) =
      pyStrip (subPunct (applyReplacements text.data)) := by
    apply applyReplacements_id
    intro c hc
    exact not_isSource_applyReplacements (mem_subPunct (mem_pyStrip hc))
  have h2 : subPunct (pyStrip (subPunct (applyReplacements text.data))) =
      pyStrip (subPunct (applyReplacements text.data)) :=
    subPunct_id_of_okPairs (okPairs_pyStrip (okPairs_subPunct _))
  have h3 := pyStrip_idem (subPunct (applyReplacements text.data))
  rw [h1, h2, h3]

/-! ## Lemmas for the Python key sort (C1) -/

theorem keyLe_refl (p : PyKey) : keyLe p p = Except.ok true := by
  cases p <;> simp [keyLe]

theorem keyLe_total {p q : PyKey} (h : keyLe p q = Except.ok false) :
    keyLe q p = Except.ok true := by
  cases p <;> cases q <;> simp [keyLe] at h ⊢
  · exact le_of_lt h
  · exact le_of_lt h

theorem keyLe_trans {p q r : PyKey} (h1 : keyLe p q = Except.ok true)
    (h2 : keyLe q r = Except.ok true) : keyLe p r = Except.ok true := by
  cases p <;> cases q <;> cases r <;> simp [keyLe] at h1 h2 ⊢
  · exact le_trans h1 h2
  · exact le_trans h1 h2

theorem comparable_of_isLeft_eq {p q : PyKey} (h : p.isLeft = q.isLeft) :
    Comparable p q := by
  cases p <;> cases q
  · exact ⟨_, rfl⟩
  · simp [Sum.isLeft] at h
  · simp [Sum.isLeft] at h
  · exact ⟨_, rfl⟩

theorem keyLe_error_of_isLeft_ne {p q : PyKey} (h : p.isLeft ≠ q.isLeft) :
    keyLe p q = Except.error () := by
  cases p <;> cases q
  · simp [Sum.isLeft] at h
  · rfl
  · rfl
  · simp [Sum.isLeft] at h

theorem pyInsert_ok {α : Type} (k : α → PyKey) (x : α) :
    ∀ (t : List α), (∀ y ∈ t, Comparable (k x) (k y)) →
      ∃ r, pyInsert k x t = Except.ok r := by
  intro t
  induction t with
  | nil => intro _; exact ⟨[x], rfl⟩
  | cons h t ih =>
      intro hc
      obtain ⟨b, hb⟩ := hc h (List.mem_cons_self h t)
      cases b with
      | true => exact ⟨x :: h :: t, by simp [pyInsert, hb]⟩
      | false =>
          obtain ⟨r, hr⟩ := ih (fun y hy => hc y (List.mem_cons_of_mem _ hy))
          exact ⟨h :: r, by simp [pyInsert, hb, hr]⟩

theorem pyInsert_perm {α : Type} (k : α → PyKey) (x : α) :
    ∀ {t r : List α}, pyInsert k x t = Except.ok r → r.Perm (x :: t) := by
  intro t
  induction t with
  | nil =>
      intro r h
      simp only [pyInsert, Except.ok.injEq] at h
      subst h
      exact List.Perm.refl _
  | cons hd t ih =>
      intro r h
      simp only [pyInsert] at h
      cases hke : keyLe (k x) (k hd) with
      | error e => rw [hke] at h; cases h
      | ok b =>
          rw [hke] at h
          cases b with
          | true =>
              simp only [Except.ok.injEq] at h
              subst h
              exact List.Perm.refl _
          | false =>
              cases hr : pyInsert k x t with
              | error e => rw [hr] at h; cases h
              | ok r2 =>
                  rw [hr] at h
                  simp only [Except.ok.injEq] at h
                  subst h
                  exact ((ih hr).cons hd).trans (List.Perm.swap x hd t)

theorem pyInsert_sorted {α : Type} (k : α → PyKey) (x : α) :
    ∀ {t r : List α},
      List.Pairwise (fun a b => keyLe (k a) (k b) = Except.ok true) t →
      pyInsert k x t = Except.ok r →
      List.Pairwise (fun a b => keyLe (k a) (k b) = Except.ok true) r := by
  intro t
  induction t with
  | nil =>
      intro r _ h
      simp only [pyInsert, Except.ok.injEq] at h
      subst h
      exact List.pairwise_singleton _ _
  | cons hd t ih =>
      intro r hp h
      simp only [pyInsert] at h
      rw [List.pairwise_cons] at hp
      cases hke : keyLe (k x) (k hd) with
      | error e => rw [hke] at h; cases h
      | ok b =>
          rw [hke] at h
          cases b with
          | true =>
              simp only [Except.ok.injEq] at h
              subst h
              rw [List.pairwise_cons]
              refine ⟨?_, List.pairwise_cons.mpr hp⟩
              intro b hb
              rcases List.mem_cons.mp hb with rfl | hbt
              · exact hke
              · exact keyLe_trans hke (hp.1 b hbt)
          | false =>
              cases hr : pyInsert k x t with
              | error e => rw [hr] at h; cases h
              | ok r2 =>
                  rw [hr] at h
                  simp only [Except.ok.injEq] at h
                  subst h
                  rw [List.pairwise_cons]
                  refine ⟨?_, ih hp.2 hr⟩
                  intro b hb
                  rcases List.mem_cons.mp ((pyInsert_perm k x hr).mem_iff.mp hb) with rfl | hbt
                  · exact keyLe_total hke
                  · exact hp.1 b hbt

theorem pyInsert_filter {α : Type} (k : α → PyKey) (x : α) :
    ∀ {t r : List α}, pyInsert k x t = Except.ok r → ∀ K : PyKey,
      r.filter (fun a => decide (k a = K)) =
        (if k x = K then [x] else []) ++ t.filter (fun a => decide (k a = K)) := by
  intro t
  induction t with
  | nil =>
      intro r h K
      simp only [pyInsert, Except.ok.injEq] at h
      subst h
      by_cases hx : k x = K <;> simp [List.filter, hx]
  | cons hd t ih =>
      intro r h K
      simp only [pyInsert] at h
      cases hke : keyLe (k x) (k hd) with
      | error e => rw [hke] at h; cases h
      | ok b =>
          rw [hke] at h
          cases b with
          | true =>
              simp only [Except.ok.injEq] at h
              subst h
              by_cases hx : k x = K <;> simp [List.filter_cons, hx]
          | false =>
              cases hr : pyInsert k x t with
              | error e => rw [hr] at h; cases h
              | ok r2 =>
                  rw [hr] at h
                  simp only [Except.ok.injEq] at h
                  subst h
                  rw [List.filter_cons, List.filter_cons, ih hr K]
                  by_cases hhd : k hd = K
                  · by_cases hx : k x = K
                    · exfalso
                      rw [hx, hhd] at hke
                      rw [keyLe_refl K] at hke
                      cases hke
                    · simp [hhd, hx]
                  · simp [hhd]

theorem pySort_spec {α : Type} (k : α → PyKey) :
    ∀ (l : List α), (∀ x ∈ l, ∀ y ∈ l, Comparable (k x) (k y)) →
      ∃ r, pySort k l = Except.ok r ∧ r.Perm l ∧
        List.Pairwise (fun a b => keyLe (k a) (k b) = Except.ok true) r ∧
        ∀ K : PyKey, r.filter (fun a => decide (k a = K)) =
          l.filter (fun a => decide (k a = K)) := by
  intro l
  induction l with
  | nil => intro _; exact ⟨[], rfl, List.Perm.refl _, List.Pairwise.nil, fun _ => rfl⟩
  | cons h t ih =>
      intro H
      obtain ⟨rt, hrt, hperm, hsort, hfilt⟩ :=
        ih (fun x hx y hy =>
          H x (List.mem_cons_of_mem _ hx) y (List.mem_cons_of_mem _ hy))
      have hcomp : ∀ y ∈ rt, Comparable (k h) (k y) := fun y hy =>
        H h (List.mem_cons_self h t) y (List.mem_cons_of_mem _ (hperm.mem_iff.mp hy))
      obtain ⟨r, hr⟩ := pyInsert_ok k h rt hcomp
      refine ⟨r, ?_, ?_, ?_, ?_⟩
      · simp [pySort, hrt, hr]
      · exact (pyInsert_perm k h hr).trans (hperm.cons h)
      · exact pyInsert_sorted k h hsort hr
      · intro K
        rw [pyInsert_filter k h hr K, hfilt K, List.filter_cons]
        by_cases hh : k h = K
        · simp [hh]
        · simp [hh]

theorem pySort_mixed {α : Type} (k : α → PyKey) :
    ∀ (l : List α), (∃ x ∈ l, (k x).isLeft = true) →
      (∃ y ∈ l, (k y).isLeft = false) → pySort k l = Except.error () := by
  intro l
  induction l with
  | nil =>
      rintro ⟨x, hx, _⟩ _
      simp at hx
  | cons h t ih =>
      rintro ⟨x, hx, hxL⟩ ⟨y, hy, hyR⟩
      by_cases hL : ∀ z ∈ t, (k z).isLeft = true
      · have hyh : y = h := by
          rcases List.mem_cons.mp hy with rfl | hyt
          · rfl
          · rw [hL y hyt] at hyR; exact Bool.noConfusion hyR
        subst hyh
        have hxt : x ∈ t := by
          rcases List.mem_cons.mp hx with rfl | hxt
          · rw [hxL] at hyR; exact Bool.noConfusion hyR
          · exact hxt
        obtain ⟨rt, hrt, hperm, _, _⟩ := pySort_spec k t
          (fun a ha b hb => comparable_of_isLeft_eq (by rw [hL a ha, hL b hb]))
        have hxrt : x ∈ rt := hperm.mem_iff.mpr hxt
        cases hrtc : rt with
        | nil => rw [hrtc] at hxrt; simp at hxrt
        | cons z rs =>
            have hzt : z ∈ t := hperm.mem_iff.mp (by rw [hrtc]; exact List.mem_cons_self z rs)
            have hke : keyLe (k y) (k z) = Except.error () :=
              keyLe_error_of_isLeft_ne (by rw [hyR, hL z hzt]; simp)
            simp [pySort, hrt, hrtc, pyInsert, hke]
      · by_cases hR : ∀ z ∈ t, (k z).isLeft = false
        · have hxh : x = h := by
            rcases List.mem_cons.mp hx with rfl | hxt
            · rfl
            · rw [hR x hxt] at hxL; exact Bool.noConfusion hxL
          subst hxh
          have hyt : y ∈ t := by
            rcases List.mem_cons.mp hy with rfl | hyt
            · rw [hxL] at hyR; exact Bool.noConfusion hyR
            · exact hyt
          obtain ⟨rt, hrt, hperm, _, _⟩ := pySort_spec k t
            (fun a ha b hb => comparable_of_isLeft_eq (by rw [hR a ha, hR b hb]))
          have hyrt : y ∈ rt := hperm.mem_iff.mpr hyt
          cases hrtc : rt with
          | nil => rw [hrtc] at hyrt; simp at hyrt
          | cons z rs =>
              have hzt : z ∈ t := hperm.mem_iff.mp (by rw [hrtc]; exact List.mem_cons_self z rs)
              have hke : keyLe (k x) (k z) = Except.error () :=
                keyLe_error_of_isLeft_ne (by rw [hxL, hR z hzt]; simp)
              simp [pySort, hrt, hrtc, pyInsert, hke]
        · push_neg at hL hR
          obtain ⟨a, ha, haL⟩ := hL
          obtain ⟨b, hb, hbR⟩ := hR
          have h1 : ∃ z ∈ t, (k z).isLeft = true := ⟨b, hb, by simpa using hbR⟩
          have h2 : ∃ z ∈ t, (k z).isLeft = false := ⟨a, ha, by simpa using haL⟩
          simp [pySort, ih h1 h2]

/-- C1 fails on the code as stated: for a manifest mixing a
numeric-suffixed identifier (`FILE_0001`) with a non-numeric one
(`CALIB`), the key comparison raises `TypeError` inside `list.sort`, so
no ordered locator sequence is produced at all — the dual-key order is
not total across the two key kinds. -/
theorem C1_counterexample :
    (∃ p ∈ collectFiles metsMixed.fulltextFiles, (sort_key p).isLeft = true) ∧
    (∃ p ∈ collectFiles metsMixed.fulltextFiles, (sort_key p).isLeft = false) ∧
    extract_alto_links (Except.ok metsMixed) = Except.error ExtractErr.typeError := by
  refine ⟨by decide, by decide, rfl⟩

/-- C1 amended: the resolved locator sequence is sorted by the numeric
suffix when every identifier has one, and lexicographically by the raw
identifier when none has one — in both cases the sort is a stable total
ordering (permutation, pairwise order, and per-key stability below) —
but a manifest mixing both identifier kinds raises `TypeError` instead
of being ordered; the `FILE_0001`, `FILE_0010`, `FILE_0002` scenario
resolves in numeric order `a1, a2, a10`. -/
theorem C1_amended_dual_key_sort (m : MetsDoc) :
    ((∀ p ∈ collectFiles m.fulltextFiles, (sort_key p).isLeft = true) →
      ∃ fs, pySort sort_key (collectFiles m.fulltextFiles) = Except.ok fs ∧
        extract_alto_links (Except.ok m) = Except.ok (fs.map (fun f => f.2)) ∧
        fs.Perm (collectFiles m.fulltextFiles) ∧
        fs.Pairwise (fun a b => keyLe (sort_key a) (sort_key b) = Except.ok true) ∧
        ∀ K : PyKey, fs.filter (fun a => decide (sort_key a = K)) =
          (collectFiles m.fulltextFiles).filter (fun a => decide (sort_key a = K))) ∧
    ((∀ p ∈ collectFiles m.fulltextFiles, (sort_key p).isLeft = false) →
      ∃ fs, pySort sort_key (collectFiles m.fulltextFiles) = Except.ok fs ∧
        extract_alto_links (Except.ok m) = Except.ok (fs.map (fun f => f.2)) ∧
        fs.Perm (collectFiles m.fulltextFiles) ∧
        fs.Pairwise (fun a b => keyLe (sort_key a) (sort_key b) = Except.ok true) ∧
        ∀ K : PyKey, fs.filter (fun a => decide (sort_key a = K)) =
          (collectFiles m.fulltextFiles).filter (fun a => decide (sort_key a = K))) ∧
    ((∃ p ∈ collectFiles m.fulltextFiles, (sort_key p).isLeft = true) →
      (∃ p ∈ collectFiles m.fulltextFiles, (sort_key p).isLeft = false) →
      extract_alto_links (Except.ok m) = Except.error ExtractErr.typeError) ∧
    extract_alto_links (Except.ok metsScenario) = Except.ok ["a1", "a2", "a10"] := by
  refine ⟨fun hall => ?_, fun hall => ?_, fun hex1 hex2 => ?_, rfl⟩
  · obtain ⟨fs, hfs, hperm, hsort, hfilt⟩ := pySort_spec sort_key
      (collectFiles m.fulltextFiles)
      (fun x hx y hy => comparable_of_isLeft_eq (by rw [hall x hx, hall y hy]))
    exact ⟨fs, hfs, by simp [extract_alto_links, hfs], hperm, hsort, hfilt⟩
  · obtain ⟨fs, hfs, hperm, hsort, hfilt⟩ := pySort_spec sort_key
      (collectFiles m.fulltextFiles)
      (fun x hx y hy => comparable_of_isLeft_eq (by rw [hall x hx, hall y hy]))
    exact ⟨fs, hfs, by simp [extract_alto_links, hfs], hperm, hsort, hfilt⟩
  · have := pySort_mixed sort_key (collectFiles m.fulltextFiles) hex1 hex2
    simp [extract_alto_links, this]

/-- Concrete instantiation of `C1_amended_dual_key_sort`: the all-numeric
scenario manifest is sorted without error, as a permutation with
pairwise-ordered keys. -/
theorem C1_amended_dual_key_sort_witness :
    ∃ fs, pySort sort_key (collectFiles metsScenario.fulltextFiles) = Except.ok fs ∧
      extract_alto_links (Except.ok metsScenario) = Except.ok (fs.map (fun f => f.2)) ∧
      fs.Perm (collectFiles metsScenario.fulltextFiles) ∧
      fs.Pairwise (fun a b => keyLe (sort_key a) (sort_key b) = Except.ok true) ∧
      ∀ K : PyKey, fs.filter (fun a => decide (sort_key a = K)) =
        (collectFiles metsScenario.fulltextFiles).filter
          (fun a => decide (sort_key a = K)) :=
  (C1_amended_dual_key_sort metsScenario).1 (by decide)
